import Mathlib

/-!
Shallow embedding of the Region/Alert Indexing and Status-Aggregation logic
of `src/js/app.js` (Invasive Species Intelligence front-end), together with
theorems settling the specification claims about it.

Conventions of the embedding:
* JS numbers that carry risk scores are modelled as rationals (`ℚ`);
  the comparisons in the source are plain `<`/`>` against the constants
  `0.5` and `0.8`, written here as `1/2` and `4/5`.
* DOM state touched by the status logic is modelled explicitly: the five
  status-row dots of the status board (ids `dot-maritime`, `dot-us`,
  `dot-canada`, `dot-gbif`, `dot-glfc` per the `mapping` table in
  `updateStatusUI`) become the structure `Dots`.  The page `index.html` is
  not part of the reviewed sources, so the existence of exactly these five
  row dots is modelled from the spec (section 3, Health Signal Set) and
  from the `mapping` table of the source.
* Strings are Lean `String`s; alert detail text, which the token scanner
  walks character by character, is modelled as `List Char`.
* Fallible network operations take an `Option` response: `none` is a
  transport, timeout or parse failure (everything the `catch` block of the
  source sees before any state mutation happened).
-/

/-- Status level of a health signal / of a status dot.  In the DOM a dot
carries no extra class when green and the class `yellow` or `red`
otherwise; the three-valued enum captures exactly that observable state. -/
inductive Status where
  | green
  | yellow
  | red
deriving DecidableEq, Repr

/-- The five status-row dots of the status board, one per data source.
Modelled from the spec: `index.html` is not under the reviewed sources, so
the dot collection is taken from the source's `mapping` table
(`dot-maritime`, `dot-us`, `dot-canada`, `dot-gbif`, `dot-glfc`). -/
inductive DotId where
  | maritime
  | us
  | canada
  | gbif
  | glfc
deriving DecidableEq, Repr

/-- The observable state of the five status-row dots. -/
structure Dots where
  maritime : Status
  us : Status
  canada : Status
  gbif : Status
  glfc : Status
deriving DecidableEq, Repr

/-- The `mapping` table of `updateStatusUI` (src/js/app.js:428-434): source
name to status-dot element id.  A name outside the table yields `none`
(`mapping[key]` is `undefined`, so `getElementById` finds no element). -/
def mapping : String → Option DotId
  | "maritime" => some .maritime
  | "us_data" => some .us
  | "canada_data" => some .canada
  | "integrity" => some .gbif
  | "infrastructure" => some .glfc
  | _ => none

/-- Write one dot: `dot.className = 'status-row-dot'` (green) followed by
`classList.add(health[key])` when the value is not green leaves the dot in
exactly the state given by the value. -/
def setDot (d : Dots) : DotId → Status → Dots
  | .maritime, v => { d with maritime := v }
  | .us, v => { d with us := v }
  | .canada, v => { d with canada := v }
  | .gbif, v => { d with gbif := v }
  | .glfc, v => { d with glfc := v }

/-- Read one dot. -/
def getDot (d : Dots) : DotId → Status
  | .maritime => d.maritime
  | .us => d.us
  | .canada => d.canada
  | .gbif => d.gbif
  | .glfc => d.glfc

/-- The dot-writing loop of `updateStatusUI` (src/js/app.js:427-449): for
each key of the health object, in insertion order, set the mapped dot when
the mapping knows the key and the element exists; keys outside the mapping
touch nothing.  The health object is modelled as an association list in
`Object.keys` order. -/
def updateStatusUI (d : Dots) (health : List (String × Status)) : Dots :=
  health.foldl
    (fun dots entry =>
      match mapping entry.1 with
      | some i => setDot dots i entry.2
      | none => dots)
    d

/-- The row dots in document order, as `querySelectorAll('.status-row-dot')`
sees them. -/
def dotsList (d : Dots) : List Status :=
  [d.maritime, d.us, d.canada, d.gbif, d.glfc]

/-- The effective `updateMasterStatus` (src/js/app.js:564-592; the earlier
declaration at lines 451-466 is shadowed by this later one under JS
function-hoisting rules): scan the row dots, set `hasError` when any dot is
red and `hasWarning` when any is yellow, then pick light and text with
precedence red, yellow, green.  The `active` (pulsing) class of the green
branch is rendered here as `Status.green`. -/
def masterStatus (rowDots : List Status) : Status × String :=
  let hasError := rowDots.any fun dot => decide (dot = Status.red)
  let hasWarning := rowDots.any fun dot => decide (dot = Status.yellow)
  if hasError then (Status.red, "System Offline")
  else if hasWarning then (Status.yellow, "Syncing Data...")
  else (Status.green, "Live Model Connected")

/-- Master light and text as recomputed from the five dots after every
`updateStatusUI` call. -/
def masterOf (d : Dots) : Status × String :=
  masterStatus (dotsList d)

theorem masterStatus_red_mem {rowDots : List Status} (h : Status.red ∈ rowDots) :
    masterStatus rowDots = (Status.red, "System Offline") := by
  have : rowDots.any (fun dot => decide (dot = Status.red)) = true := by
    simp only [List.any_eq_true, decide_eq_true_eq]
    exact ⟨Status.red, h, rfl⟩
  simp [masterStatus, this]

theorem masterStatus_yellow_mem {rowDots : List Status}
    (hr : Status.red ∉ rowDots) (hy : Status.yellow ∈ rowDots) :
    masterStatus rowDots = (Status.yellow, "Syncing Data...") := by
  have h1 : rowDots.any (fun dot => decide (dot = Status.red)) = false := by
    simp only [List.any_eq_false, decide_eq_true_eq]
    intro x hx hred
    exact hr (hred ▸ hx)
  have h2 : rowDots.any (fun dot => decide (dot = Status.yellow)) = true := by
    simp only [List.any_eq_true, decide_eq_true_eq]
    exact ⟨Status.yellow, hy, rfl⟩
  simp [masterStatus, h1, h2]

theorem masterStatus_green {rowDots : List Status}
    (hr : Status.red ∉ rowDots) (hy : Status.yellow ∉ rowDots) :
    masterStatus rowDots = (Status.green, "Live Model Connected") := by
  have h1 : rowDots.any (fun dot => decide (dot = Status.red)) = false := by
    simp only [List.any_eq_false, decide_eq_true_eq]
    intro x hx hred
    exact hr (hred ▸ hx)
  have h2 : rowDots.any (fun dot => decide (dot = Status.yellow)) = false := by
    simp only [List.any_eq_false, decide_eq_true_eq]
    intro x hx hyel
    exact hy (hyel ▸ hx)
  simp [masterStatus, h1, h2]

/-- C1: the health aggregation of `updateMasterStatus` is total and
deterministic (it is a Lean function) with precedence red over yellow over
green: any red dot gives red and "System Offline"; otherwise any yellow dot
gives yellow and "Syncing Data..."; otherwise, the empty collection
included, the result is green and "Live Model Connected". -/
theorem healthAggregationPrecedence (rowDots : List Status) :
    (Status.red ∈ rowDots →
      masterStatus rowDots = (Status.red, "System Offline")) ∧
    (Status.red ∉ rowDots → Status.yellow ∈ rowDots →
      masterStatus rowDots = (Status.yellow, "Syncing Data...")) ∧
    (Status.red ∉ rowDots → Status.yellow ∉ rowDots →
      masterStatus rowDots = (Status.green, "Live Model Connected")) ∧
    masterStatus [] = (Status.green, "Live Model Connected") := by
  refine ⟨fun h => masterStatus_red_mem h,
    fun hr hy => masterStatus_yellow_mem hr hy,
    fun hr hy => masterStatus_green hr hy, ?_⟩
  rfl

/-- Witness for C1 at concrete signal collections: a set with a red and a
yellow aggregates to red (precedence), a red-free set with a yellow to
yellow, and an all-green set to green. -/
theorem healthAggregationPrecedence_witness :
    masterStatus [Status.green, Status.red, Status.yellow] =
      (Status.red, "System Offline") ∧
    masterStatus [Status.green, Status.yellow] =
      (Status.yellow, "Syncing Data...") ∧
    masterStatus [Status.green, Status.green] =
      (Status.green, "Live Model Connected") :=
  ⟨(healthAggregationPrecedence [Status.green, Status.red, Status.yellow]).1
      (by decide),
    (healthAggregationPrecedence [Status.green, Status.yellow]).2.1
      (by decide) (by decide),
    (healthAggregationPrecedence [Status.green, Status.green]).2.2.1
      (by decide) (by decide)⟩

theorem getDot_setDot (d : Dots) (j i : DotId) (v : Status) :
    getDot (setDot d j v) i = if j = i then v else getDot d i := by
  cases j <;> cases i <;> simp [getDot, setDot]

theorem updateStatusUI_cons (d : Dots) (e : String × Status)
    (t : List (String × Status)) :
    updateStatusUI d (e :: t) =
      updateStatusUI
        (match mapping e.1 with
          | some i => setDot d i e.2
          | none => d) t := rfl

theorem updateStatusUI_append (d : Dots) (h1 h2 : List (String × Status)) :
    updateStatusUI d (h1 ++ h2) = updateStatusUI (updateStatusUI d h1) h2 := by
  simp [updateStatusUI, List.foldl_append]

/-- C10: an entry of the health object whose source name is outside the
five keys of the `mapping` table is silently skipped by `updateStatusUI`
(`mapping[key]` is `undefined`, `getElementById(undefined)` is `null`, the
`if (dot)` guard fails): deleting the entry changes neither any dot nor the
aggregated master light and text.  The operation is a total Lean function,
so it cannot fail on such an entry. -/
theorem unknownSourceIgnored (d : Dots) (h1 h2 : List (String × Status))
    (k : String) (v : Status) (hk : mapping k = none) :
    updateStatusUI d (h1 ++ (k, v) :: h2) = updateStatusUI d (h1 ++ h2) ∧
    masterOf (updateStatusUI d (h1 ++ (k, v) :: h2)) =
      masterOf (updateStatusUI d (h1 ++ h2)) := by
  have heq : updateStatusUI d (h1 ++ (k, v) :: h2) = updateStatusUI d (h1 ++ h2) := by
    rw [updateStatusUI_append, updateStatusUI_append, updateStatusUI_cons]
    simp [hk]
  exact ⟨heq, by rw [heq]⟩

/-- Witness for C10: the name "gbif" (the element id of the integrity dot,
but not a source name of the mapping) is ignored even when its entry is
red: the result equals the one for the signal set without it. -/
theorem unknownSourceIgnored_witness :
    updateStatusUI ⟨.green, .green, .green, .green, .green⟩
        ([("maritime", Status.green)] ++ ("gbif", Status.red) ::
          [("us_data", Status.green)]) =
      updateStatusUI ⟨.green, .green, .green, .green, .green⟩
        ([("maritime", Status.green)] ++ [("us_data", Status.green)]) ∧
    masterOf (updateStatusUI ⟨.green, .green, .green, .green, .green⟩
        ([("maritime", Status.green)] ++ ("gbif", Status.red) ::
          [("us_data", Status.green)])) =
      masterOf (updateStatusUI ⟨.green, .green, .green, .green, .green⟩
        ([("maritime", Status.green)] ++ [("us_data", Status.green)])) :=
  unknownSourceIgnored ⟨.green, .green, .green, .green, .green⟩
    [("maritime", Status.green)] [("us_data", Status.green)]
    "gbif" Status.red (by rfl)

theorem getDot_updateStatusUI_congr (h : List (String × Status))
    (d d' : Dots) (i : DotId) (hag : getDot d i = getDot d' i) :
    getDot (updateStatusUI d h) i = getDot (updateStatusUI d' h) i := by
  induction h generalizing d d' with
  | nil => exact hag
  | cons e t ih =>
    rw [updateStatusUI_cons, updateStatusUI_cons]
    cases hm : mapping e.1 with
    | none => exact ih d d' hag
    | some j =>
      apply ih
      rw [getDot_setDot, getDot_setDot]
      split
      · rfl
      · exact hag

theorem getDot_updateStatusUI_covered (h : List (String × Status))
    (d d' : Dots) (i : DotId)
    (hc : ∃ k v, (k, v) ∈ h ∧ mapping k = some i) :
    getDot (updateStatusUI d h) i = getDot (updateStatusUI d' h) i := by
  induction h generalizing d d' with
  | nil => obtain ⟨k, v, hm, _⟩ := hc; cases hm
  | cons e t ih =>
    obtain ⟨k, v, hm, hmap⟩ := hc
    rw [updateStatusUI_cons, updateStatusUI_cons]
    rcases List.mem_cons.mp hm with he | ht
    · subst he
      rw [hmap]
      rcases List.decidableBEx (fun e => mapping e.1 = some i) t with hno | hyes
      · apply getDot_updateStatusUI_congr
        rw [getDot_setDot, getDot_setDot]
        simp
      · obtain ⟨e', he', hmap'⟩ := hyes
        exact ih _ _ ⟨e'.1, e'.2, by simpa using he', hmap'⟩
    · cases hm' : mapping e.1 with
      | none => exact ih d d' ⟨k, v, ht, hmap⟩
      | some j => exact ih _ _ ⟨k, v, ht, hmap⟩

/-- Equality of two dot states from pointwise equality on the five dots. -/
theorem dots_ext {d d' : Dots} (h : ∀ i, getDot d i = getDot d' i) : d = d' := by
  cases d; cases d'
  have h1 := h .maritime
  have h2 := h .us
  have h3 := h .canada
  have h4 := h .gbif
  have h5 := h .glfc
  simp only [getDot] at h1 h2 h3 h4 h5
  subst h1 h2 h3 h4 h5
  rfl

/-- C8 counterexample: health aggregation is not a pure function of the
signal set passed to `updateStatusUI`.  Two invocations with the identical
signal set `[("maritime", green)]` produce different master lights and
texts, because an earlier invocation with `[("us_data", red)]` left the
`dot-us` element red and the second signal set does not overwrite it:
hidden state is carried between invocations through the DOM dots. -/
theorem healthAggregationNotPure_counterexample :
    masterOf (updateStatusUI ⟨.green, .green, .green, .green, .green⟩
        [("maritime", Status.green)]) =
      (Status.green, "Live Model Connected") ∧
    masterOf (updateStatusUI
        (updateStatusUI ⟨.green, .green, .green, .green, .green⟩
          [("us_data", Status.red)])
        [("maritime", Status.green)]) =
      (Status.red, "System Offline") ∧
    (Status.green, "Live Model Connected") ≠
      ((Status.red, "System Offline") : Status × String) := by
  refine ⟨rfl, rfl, ?_⟩
  intro h
  cases h

/-- C8 as amended: the aggregation is a pure function of the five dot
states, and it is a pure function of the signal set alone exactly when the
set assigns a status to every one of the five known source names
(maritime, us_data, canada_data, integrity, infrastructure), since then
every dot is overwritten: two invocations from arbitrary different prior
dot states end in the same dots and the same master light and text. -/
theorem healthAggregationPureWhenCovering (d d' : Dots)
    (h : List (String × Status))
    (hm : ∃ v, ("maritime", v) ∈ h)
    (hu : ∃ v, ("us_data", v) ∈ h)
    (hc : ∃ v, ("canada_data", v) ∈ h)
    (hi : ∃ v, ("integrity", v) ∈ h)
    (hf : ∃ v, ("infrastructure", v) ∈ h) :
    updateStatusUI d h = updateStatusUI d' h ∧
    masterOf (updateStatusUI d h) = masterOf (updateStatusUI d' h) := by
  have heq : updateStatusUI d h = updateStatusUI d' h := by
    apply dots_ext
    intro i
    apply getDot_updateStatusUI_covered
    cases i with
    | maritime => obtain ⟨v, hv⟩ := hm; exact ⟨"maritime", v, hv, rfl⟩
    | us => obtain ⟨v, hv⟩ := hu; exact ⟨"us_data", v, hv, rfl⟩
    | canada => obtain ⟨v, hv⟩ := hc; exact ⟨"canada_data", v, hv, rfl⟩
    | gbif => obtain ⟨v, hv⟩ := hi; exact ⟨"integrity", v, hv, rfl⟩
    | glfc => obtain ⟨v, hv⟩ := hf; exact ⟨"infrastructure", v, hv, rfl⟩
  exact ⟨heq, by rw [heq]⟩

/-- Witness for the amended C8: a signal set covering all five known
sources gives the same dots and master outcome from two different prior
dot states. -/
theorem healthAggregationPureWhenCovering_witness :
    updateStatusUI ⟨.green, .green, .green, .green, .green⟩
        [("maritime", Status.green), ("us_data", Status.yellow),
          ("canada_data", Status.green), ("integrity", Status.green),
          ("infrastructure", Status.green)] =
      updateStatusUI ⟨.red, .red, .red, .red, .red⟩
        [("maritime", Status.green), ("us_data", Status.yellow),
          ("canada_data", Status.green), ("integrity", Status.green),
          ("infrastructure", Status.green)] :=
  (healthAggregationPureWhenCovering
    ⟨.green, .green, .green, .green, .green⟩
    ⟨.red, .red, .red, .red, .red⟩
    [("maritime", Status.green), ("us_data", Status.yellow),
      ("canada_data", Status.green), ("integrity", Status.green),
      ("infrastructure", Status.green)]
    ⟨Status.green, by decide⟩ ⟨Status.yellow, by decide⟩
    ⟨Status.green, by decide⟩ ⟨Status.green, by decide⟩
    ⟨Status.green, by decide⟩).1

/-- Risk colors from `CONFIG.colors` (src/js/app.js:11-17). -/
def riskHigh : String := "#ef4444"

def riskMed : String := "#f59e0b"

def riskLow : String := "#10b981"

/-- A scored region of the prediction payload, restricted to the fields
the claims touch: `region.id` (possibly absent in a malformed region) and
`region.properties.risk_score`. -/
structure Region where
  id : Option String
  risk_score : ℚ
deriving DecidableEq, Repr

/-- The color choice of the `getStyle` closure in `renderRiskPolygons`
(src/js/app.js:271-287): start at the low color, overwrite with the medium
color when `score > 0.5`, overwrite with the high color when `score > 0.8`
(two independent `if` statements, in that order). -/
def getStyle (score : ℚ) : String :=
  let color := riskLow
  let color := if score > 1/2 then riskMed else color
  let color := if score > 4/5 then riskHigh else color
  color

/-- The score color of `updateSidePanel` (src/js/app.js:352-355): an
`if / else if / else` chain testing `> 0.8` then `> 0.5`. -/
def sidePanelScoreColor (score : ℚ) : String :=
  if score > 4/5 then riskHigh
  else if score > 1/2 then riskMed
  else riskLow

/-- A rendered risk-overlay layer: `geoLayer.regionId = region.id` and the
style color computed from the region score. -/
structure Layer where
  regionId : Option String
  color : String
deriving DecidableEq, Repr

/-- Build the overlay layer for one region, as the body of the `forEach`
in `renderRiskPolygons` does. -/
def mkLayer (region : Region) : Layer :=
  { regionId := region.id, color := getStyle region.risk_score }

/-- The whole of `renderRiskPolygons` (src/js/app.js:268-337) as it acts
on the `risk_overlay` layer group: for each region of the batch, in source
order, build a geoJSON layer and `addTo(layerGroups.risk_overlay)`.  The
group is never cleared, so the fold starts from the overlay already on the
map. -/
def renderRiskPolygons (overlay : List Layer) (regions : List Region) :
    List Layer :=
  regions.foldl (fun acc region => acc ++ [mkLayer region]) overlay

theorem renderRiskPolygons_eq_append (overlay : List Layer)
    (regions : List Region) :
    renderRiskPolygons overlay regions = overlay ++ regions.map mkLayer := by
  induction regions generalizing overlay with
  | nil => simp [renderRiskPolygons]
  | cons r rs ih =>
    simp only [renderRiskPolygons, List.foldl_cons, List.map_cons] at *
    rw [ih (overlay ++ [mkLayer r])]
    simp

/-- C3: risk classification uses exactly the cut-points 0.5 and 0.8 with
strict inequalities, in both the polygon style of `getStyle` and the side
panel score color: above 0.8 the high color, in (0.5, 0.8] the medium
color, at or below 0.5 the low color; in particular a score of exactly 0.5
classifies low and exactly 0.8 classifies medium. -/
theorem getStyle_eq_ite (s : ℚ) :
    getStyle s =
      if s > 4/5 then riskHigh
      else if s > 1/2 then riskMed
      else riskLow := by
  by_cases h8 : s > 4/5
  · have h5 : s > 1/2 := lt_trans (by norm_num) h8
    simp only [getStyle, if_pos h8, if_pos h5]
  · by_cases h5 : s > 1/2
    · simp only [getStyle, if_neg h8, if_pos h5]
    · simp only [getStyle, if_neg h8, if_neg h5]

theorem riskClassificationCutPoints (s : ℚ) :
    (s > 4/5 → getStyle s = riskHigh ∧ sidePanelScoreColor s = riskHigh) ∧
    (1/2 < s ∧ s ≤ 4/5 →
      getStyle s = riskMed ∧ sidePanelScoreColor s = riskMed) ∧
    (s ≤ 1/2 → getStyle s = riskLow ∧ sidePanelScoreColor s = riskLow) ∧
    (getStyle (1/2) = riskLow ∧ sidePanelScoreColor (1/2) = riskLow) ∧
    (getStyle (4/5) = riskMed ∧ sidePanelScoreColor (4/5) = riskMed) := by
  have hlow : ¬ ((1:ℚ)/2 > 4/5) := by norm_num
  have hlow2 : ¬ ((1:ℚ)/2 > 1/2) := by norm_num
  have hmed : ¬ ((4:ℚ)/5 > 4/5) := by norm_num
  have hmed2 : (4:ℚ)/5 > 1/2 := by norm_num
  refine ⟨fun hH => ?_, fun hM => ?_, fun hL => ?_, ⟨?_, ?_⟩, ⟨?_, ?_⟩⟩
  · constructor <;>
      [rw [getStyle_eq_ite]; rw [sidePanelScoreColor]] <;>
      rw [if_pos hH]
  · obtain ⟨h5, h8⟩ := hM
    have h8' : ¬ s > 4/5 := not_lt.mpr h8
    constructor <;>
      [rw [getStyle_eq_ite]; rw [sidePanelScoreColor]] <;>
      rw [if_neg h8', if_pos h5]
  · have h5 : ¬ s > 1/2 := not_lt.mpr hL
    have h8 : ¬ s > 4/5 := not_lt.mpr (le_trans hL (by norm_num))
    constructor <;>
      [rw [getStyle_eq_ite]; rw [sidePanelScoreColor]] <;>
      rw [if_neg h8, if_neg h5]
  · rw [getStyle_eq_ite, if_neg hlow, if_neg hlow2]
  · rw [sidePanelScoreColor, if_neg hlow, if_neg hlow2]
  · rw [getStyle_eq_ite, if_neg hmed, if_pos hmed2]
  · rw [sidePanelScoreColor, if_neg hmed, if_pos hmed2]

/-- Witness for C3 at concrete scores 0.9, 0.7 and 0.3. -/
theorem riskClassificationCutPoints_witness :
    (getStyle (9/10) = riskHigh ∧ sidePanelScoreColor (9/10) = riskHigh) ∧
    (getStyle (7/10) = riskMed ∧ sidePanelScoreColor (7/10) = riskMed) ∧
    (getStyle (3/10) = riskLow ∧ sidePanelScoreColor (3/10) = riskLow) :=
  ⟨(riskClassificationCutPoints (9/10)).1 (by norm_num),
    (riskClassificationCutPoints (7/10)).2.1 (by norm_num),
    (riskClassificationCutPoints (3/10)).2.2.1 (by norm_num)⟩

/-- C2 counterexample: `renderRiskPolygons` never clears the
`risk_overlay` layer group, so a refresh does not replace the snapshot
wholesale.  From an overlay holding a layer of the previous snapshot
(region `grid-001`), rendering the new one-region batch `grid-002` leaves
both on the map: the old region coexists with the new one and the visible
regions are not exactly the new batch. -/
theorem regionReplaceAll_counterexample :
    (renderRiskPolygons [{ regionId := some "grid-001", color := riskLow }]
        [{ id := some "grid-002", risk_score := 9/10 }]).map Layer.regionId =
      [some "grid-001", some "grid-002"] ∧
    [some "grid-001", some "grid-002"] ≠ [some "grid-002"] := by
  constructor
  · rfl
  · intro h
    exact absurd (List.ext_get_iff.mp h).1 (by decide)

/-- C2 as amended: a refresh appends the batch's layers to the overlay in
source order without discarding the prior snapshot, so the visible layers
are the prior ones followed by the new batch's; only from an empty overlay
(the state of the single initial `loadAILayer` call, the only refresh the
code performs) does the visible set equal exactly the new batch. -/
theorem regionRefreshAppends (overlay : List Layer) (regions : List Region) :
    renderRiskPolygons overlay regions = overlay ++ regions.map mkLayer ∧
    (overlay = [] →
      renderRiskPolygons overlay regions = regions.map mkLayer) := by
  refine ⟨renderRiskPolygons_eq_append overlay regions, fun he => ?_⟩
  rw [he, renderRiskPolygons_eq_append]
  rfl

/-- Witness for the amended C2 on a concrete overlay and batch. -/
theorem regionRefreshAppends_witness :
    renderRiskPolygons ([] : List Layer)
        [{ id := some "grid-002", risk_score := 9/10 }] =
      List.map mkLayer [{ id := some "grid-002", risk_score := 9/10 }] :=
  (regionRefreshAppends [] [{ id := some "grid-002", risk_score := 9/10 }]).2
    rfl

/-- Validity of a region in the sense of claim C7: it has an identifier
and its risk score lies in the unit interval. -/
def validRegion (r : Region) : Prop :=
  r.id.isSome = true ∧ 0 ≤ r.risk_score ∧ r.risk_score ≤ 1

/-- C7 counterexample: `renderRiskPolygons` performs no validation at all.
A batch holding the valid region `grid-001` and a malformed region (no
identifier, risk score 1.5 outside the unit interval) is rendered whole:
the malformed region is not rejected, no validation error exists anywhere
in the code, and the resulting overlay is not the valid subset
`[grid-001]` alone. -/
theorem malformedRegionRejected_counterexample :
    ¬ validRegion { id := none, risk_score := 3/2 } ∧
    (renderRiskPolygons []
        [{ id := some "grid-001", risk_score := 3/10 },
          { id := none, risk_score := 3/2 }]).map Layer.regionId =
      [some "grid-001", none] ∧
    [some "grid-001", (none : Option String)] ≠ [some "grid-001"] := by
  refine ⟨?_, rfl, ?_⟩
  · intro h
    simp [validRegion] at h
  · intro h
    exact absurd (List.ext_get_iff.mp h).1 (by decide)

/-- C7 as amended: the refresh accepts every region of the batch, the
malformed ones included, in source order; nothing is rejected and no
validation error is recorded, so the overlay lists exactly the whole batch
(not the valid subset). -/
theorem malformedRegionsAccepted (batch : List Region)
    (_hbad : ∃ r ∈ batch, ¬ validRegion r) :
    (renderRiskPolygons [] batch).map Layer.regionId =
      batch.map Region.id := by
  rw [renderRiskPolygons_eq_append]
  simp [mkLayer, List.map_map]

/-- Witness for the amended C7: the counterexample batch is accepted
whole. -/
theorem malformedRegionsAccepted_witness :
    (renderRiskPolygons []
        [{ id := some "grid-001", risk_score := 3/10 },
          { id := none, risk_score := 3/2 }]).map Layer.regionId =
      List.map Region.id
        [{ id := some "grid-001", risk_score := 3/10 },
          { id := none, risk_score := 3/2 }] :=
  malformedRegionsAccepted
    [{ id := some "grid-001", risk_score := 3/10 },
      { id := none, risk_score := 3/2 }]
    ⟨{ id := none, risk_score := 3/2 }, by simp, by
      intro h
      simp [validRegion] at h⟩

/-- An alert of the prediction payload (type, title, detail, timestamp);
the detail text, which the token scanner walks, is a character list. -/
structure Alert where
  type : String
  title : String
  detail : List Char
  timestamp : String
deriving DecidableEq, Repr

/-- An infrastructure point of the `/infrastructure` payload, restricted
to the fields the grouping logic reads. -/
structure InfraPoint where
  type : String
  name : String
  fc : Option String
deriving DecidableEq, Repr

/-- The mutable front-end state the claims observe: the risk-overlay layer
group, the rendered alerts feed (`none` before any render), the side-panel
region, the five status dots, and the three infrastructure layer groups. -/
structure AppState where
  risk_overlay : List Layer
  feed : Option (List Alert)
  panel : Option Region
  dots : Dots
  barriers : List InfraPoint
  treatments : List InfraPoint
  trapping : List InfraPoint
deriving DecidableEq, Repr

/-- A parsed `/predict` response body: `regions` (the `forEach` requires
it), optional `alerts` (guarded by `if (data.alerts)`) and optional
`metadata.health` (guarded by `if (data.metadata && data.metadata.health)`). -/
structure PredictData where
  regions : List Region
  alerts : Option (List Alert)
  health : Option (List (String × Status))
deriving Repr

/-- The health object the `catch` block of `loadAILayer` synthesizes
(src/js/app.js:259-264): maritime stays green (still simulated), the three
remote sources us_data, canada_data and integrity go red. -/
def degradedHealth : List (String × Status) :=
  [("maritime", Status.green), ("us_data", Status.red),
    ("canada_data", Status.red), ("integrity", Status.red)]

/-- The whole of `loadAILayer` (src/js/app.js:222-266) as a state
transformer.  A `some` response is a fetched, `ok`, parsed body: render
the regions onto the overlay, replace the feed when alerts are present,
load the first region into the side panel when the batch is non-empty, and
apply the health object when present.  A `none` response is a transport or
parse failure: the `catch` block runs `updateStatusUI` on the synthesized
degraded health object and touches nothing else. -/
def loadAILayer (st : AppState) (resp : Option PredictData) : AppState :=
  match resp with
  | some data =>
    let st1 := { st with risk_overlay := renderRiskPolygons st.risk_overlay data.regions }
    let st2 :=
      match data.alerts with
      | some alerts => { st1 with feed := some alerts }
      | none => st1
    let st3 :=
      match data.regions.head? with
      | some r => { st2 with panel := some r }
      | none => st2
    match data.health with
    | some h => { st3 with dots := updateStatusUI st3.dots h }
    | none => st3
  | none => { st with dots := updateStatusUI st.dots degradedHealth }

/-- C4: a prediction refresh that fails with a transport or parse error
leaves the region overlay, the alerts feed and the side panel exactly as
they were, and updates the dots with precisely the synthesized degraded
set; in the resulting dot state the three remote sources (us_data,
canada_data, integrity) are red while the locally simulated maritime
source is green. -/
theorem failedRefreshKeepsSnapshot (st : AppState) :
    (loadAILayer st none).risk_overlay = st.risk_overlay ∧
    (loadAILayer st none).feed = st.feed ∧
    (loadAILayer st none).panel = st.panel ∧
    (loadAILayer st none).dots = updateStatusUI st.dots degradedHealth ∧
    (loadAILayer st none).dots.us = Status.red ∧
    (loadAILayer st none).dots.canada = Status.red ∧
    (loadAILayer st none).dots.gbif = Status.red ∧
    (loadAILayer st none).dots.maritime = Status.green := by
  refine ⟨rfl, rfl, rfl, rfl, ?_, ?_, ?_, ?_⟩ <;>
    simp [loadAILayer, updateStatusUI, degradedHealth, mapping, setDot]

/-- The infrastructure point grouping of `loadInfrastructure`
(src/js/app.js:99-137): treatments and trapping points go to their own
layer groups, everything else to the barriers group (the default). -/
def addInfraPoint (st : AppState) (pt : InfraPoint) : AppState :=
  if pt.type = "treatment" then { st with treatments := st.treatments ++ [pt] }
  else if pt.type = "trapping" then { st with trapping := st.trapping ++ [pt] }
  else { st with barriers := st.barriers ++ [pt] }

/-- The whole of `loadInfrastructure` (src/js/app.js:87-142) as a state
transformer.  A `some` response distributes the points over the three
layer groups; a `none` response (fetch rejection or a non-ok status, both
landing in the `catch`) only runs `console.error` and changes nothing. -/
def loadInfrastructure (st : AppState) (resp : Option (List InfraPoint)) :
    AppState :=
  match resp with
  | none => st
  | some pts => pts.foldl addInfraPoint st

/-- C9: a failed infrastructure refresh is only logged: the state is
returned unchanged, so no health dot changes (in particular not the
integrity dot `dot-gbif`), the aggregated master light and text are
unchanged, and the region overlay and alerts feed are untouched. -/
theorem failedInfrastructureOnlyLogged (st : AppState) :
    loadInfrastructure st none = st ∧
    (loadInfrastructure st none).dots = st.dots ∧
    (loadInfrastructure st none).dots.gbif = st.dots.gbif ∧
    masterOf (loadInfrastructure st none).dots = masterOf st.dots ∧
    (loadInfrastructure st none).risk_overlay = st.risk_overlay ∧
    (loadInfrastructure st none).feed = st.feed :=
  ⟨rfl, rfl, rfl, rfl, rfl, rfl⟩

/-- The spec's `resolve` prefix stripping, modelled from the spec (the
claim's resolution contract; no stripping exists in the source): remove a
leading "grid-" from a token, `none` when the token does not start with
it. -/
def stripGrid : List Char → Option (List Char)
  | 'g' :: 'r' :: 'i' :: 'd' :: '-' :: rest => some rest
  | _ => none

/-- The lookup loop of `zoomToGrid` (src/js/app.js:408-425): walk the
layers of the risk overlay and remember every layer whose `regionId`
strictly equals the clicked token (the last assignment wins); the caller
then zooms when a layer was found and logs a warning otherwise.  The
comparison is against the full token, prefix included. -/
def zoomToGrid (overlay : List Layer) (gridId : String) : Option Layer :=
  overlay.foldl
    (fun found layer =>
      if layer.regionId = some gridId then some layer else found)
    none

/-- C6 counterexample: resolution does not strip the "grid-" prefix.  In a
store holding a region whose identifier is "042", the token "grid-042"
(whose remainder after stripping the prefix is exactly "042") resolves to
not-found, because `zoomToGrid` compares the whole token against the
identifier. -/
theorem resolveStripsGrid_counterexample :
    stripGrid ("grid-042".data) = some ("042".data) ∧
    zoomToGrid [{ regionId := some "042", color := riskLow }] "grid-042" =
      none := by
  constructor
  · rfl
  · rfl

theorem zoomToGrid_snoc (t : List Layer) (l : Layer) (gridId : String) :
    zoomToGrid (t ++ [l]) gridId =
      if l.regionId = some gridId then some l else zoomToGrid t gridId := by
  simp [zoomToGrid, List.foldl_append]

/-- C6 as amended: `zoomToGrid` resolves a token by comparing the full
token (prefix included) against region identifiers with exact,
case-sensitive string equality and no normalization; the last matching
layer wins, the result is not-found exactly when no layer matches, and the
lookup is a total function, so it never throws. -/
theorem resolveExactFullToken (overlay : List Layer) (gridId : String) :
    zoomToGrid overlay gridId =
      (overlay.filter fun l => decide (l.regionId = some gridId)).getLast? := by
  induction overlay using List.reverseRecOn with
  | nil => rfl
  | append_singleton t l ih =>
    rw [zoomToGrid_snoc, List.filter_append]
    by_cases hl : l.regionId = some gridId
    · simp [hl]
    · simp [hl, ih]

/-- Word characters of the JavaScript regex class `\w` without the `u`
flag: ASCII letters, digits and underscore. -/
def isWordChar (c : Char) : Bool := c.isAlphanum || c = '_'

/-- Characters of the regex class `[\w-]`: word characters and the
hyphen. -/
def isTokenChar (c : Char) : Bool := isWordChar c || c = '-'

/-- One attempt of the regex `/grid-[\w-]+/` at the head of the text: it
succeeds exactly when the text starts with the literal `grid-` followed by
at least one `[\w-]` character, and then consumes the greedy maximal run;
it returns the matched token and the unconsumed remainder. -/
def matchGridAt : List Char → Option (List Char × List Char)
  | 'g' :: 'r' :: 'i' :: 'd' :: '-' :: rest =>
    match rest.takeWhile isTokenChar with
    | [] => none
    | c :: cs =>
      some ('g' :: 'r' :: 'i' :: 'd' :: '-' :: c :: cs,
        rest.dropWhile isTokenChar)
  | _ => none

theorem matchGridAt_spec {s tok rest : List Char}
    (h : matchGridAt s = some (tok, rest)) :
    ∃ tail, s = 'g' :: 'r' :: 'i' :: 'd' :: '-' :: tail ∧
      tok = 'g' :: 'r' :: 'i' :: 'd' :: '-' :: tail.takeWhile isTokenChar ∧
      rest = tail.dropWhile isTokenChar ∧
      tail.takeWhile isTokenChar ≠ [] := by
  unfold matchGridAt at h
  split at h
  · next tail =>
    refine ⟨tail, rfl, ?_⟩
    split at h
    · cases h
    · next c cs hrun =>
      obtain ⟨htok, hrest⟩ := Prod.mk.injEq .. ▸ Option.some.injEq .. ▸ h
      exact ⟨by rw [← htok, hrun], by rw [← hrest], by rw [hrun]; simp⟩
  · cases h

theorem dropWhile_length_le (p : Char → Bool) (l : List Char) :
    (l.dropWhile p).length ≤ l.length := by
  induction l with
  | nil => simp
  | cons a t ih =>
    rw [List.dropWhile_cons]
    split
    · exact le_trans ih (by simp)
    · simp

theorem matchGridAt_length {s tok rest : List Char}
    (h : matchGridAt s = some (tok, rest)) : rest.length < s.length := by
  obtain ⟨tail, hs, _, hrest, _⟩ := matchGridAt_spec h
  rw [hs, hrest]
  simp only [List.length_cons]
  have := dropWhile_length_le isTokenChar tail
  omega

/-- The left-to-right, non-overlapping scan of the global regex
`/(grid-[\w-]+)/g` over alert detail text, as `updateAlertsFeed`
(src/js/app.js:386-404) runs it through `String.replace`: try a match at
the current position; on success emit the token and continue after it, on
failure advance one character.  The emitted sequence is the sequence of
matched tokens in order of appearance, duplicates preserved. -/
def gridTokens : List Char → List (List Char)
  | [] => []
  | c :: cs =>
    match h : matchGridAt (c :: cs) with
    | some (tok, rest) => tok :: gridTokens rest
    | none => gridTokens cs
termination_by s => s.length
decreasing_by
  · exact matchGridAt_length h
  · simp

theorem gridTokens_nil : gridTokens [] = [] := by
  simp [gridTokens]

theorem gridTokens_cons_hit {c : Char} {cs tok rest : List Char}
    (h : matchGridAt (c :: cs) = some (tok, rest)) :
    gridTokens (c :: cs) = tok :: gridTokens rest := by
  rw [gridTokens]
  split
  · next tok' rest' h' =>
    rw [h] at h'
    obtain ⟨h1, h2⟩ := Prod.mk.injEq .. ▸ Option.some.injEq .. ▸ h'
    rw [h1, h2]
  · next h' =>
    rw [h] at h'
    cases h'

theorem gridTokens_cons_miss {c : Char} {cs : List Char}
    (h : matchGridAt (c :: cs) = none) :
    gridTokens (c :: cs) = gridTokens cs := by
  rw [gridTokens]
  split
  · next tok' rest' h' =>
    rw [h] at h'
    cases h'
  · rfl

/-- The shape of a region-reference token demanded by the pattern: the
literal `grid-` followed by at least one word-or-hyphen character. -/
def tokenShape (t : List Char) : Prop :=
  ∃ u, t = 'g' :: 'r' :: 'i' :: 'd' :: '-' :: u ∧ u ≠ [] ∧
    ∀ c ∈ u, isTokenChar c = true

/-- Text `s` contains some substring of token shape. -/
def containsToken (s : List Char) : Prop :=
  ∃ pre t post, s = pre ++ t ++ post ∧ tokenShape t

/-- A token sequence occurs in `s` as pairwise disjoint substrings in
left-to-right order. -/
def embedded : List (List Char) → List Char → Prop
  | [], _ => True
  | t :: ts, s => ∃ pre post, s = pre ++ t ++ post ∧ embedded ts post

theorem embedded_cons_of {ts : List (List Char)} {s : List Char} (c : Char)
    (h : embedded ts s) : embedded ts (c :: s) := by
  cases ts with
  | nil => trivial
  | cons t ts' =>
    obtain ⟨pre, post, heq, he⟩ := h
    exact ⟨c :: pre, post, by rw [heq]; rfl, he⟩

theorem gridTokens_shape :
    ∀ n (s : List Char), s.length ≤ n → ∀ t ∈ gridTokens s, tokenShape t := by
  intro n
  induction n with
  | zero =>
    intro s hs t ht
    have hnil : s = [] := List.length_eq_zero.mp (Nat.le_zero.mp hs)
    rw [hnil, gridTokens_nil] at ht
    cases ht
  | succ n ih =>
    intro s hs t ht
    cases s with
    | nil =>
      rw [gridTokens_nil] at ht
      cases ht
    | cons c cs =>
      cases hm : matchGridAt (c :: cs) with
      | none =>
        rw [gridTokens_cons_miss hm] at ht
        refine ih cs ?_ t ht
        simp only [List.length_cons] at hs
        omega
      | some pr =>
        obtain ⟨tok, rest⟩ := pr
        rw [gridTokens_cons_hit hm] at ht
        obtain ⟨tail, hsx, htok, hrest, hrun⟩ := matchGridAt_spec hm
        rcases List.mem_cons.mp ht with rfl | ht'
        · exact ⟨tail.takeWhile isTokenChar, htok, hrun,
            fun ch hch => List.mem_takeWhile_imp hch⟩
        · refine ih rest ?_ t ht'
          have hlt := matchGridAt_length hm
          simp only [List.length_cons] at hlt hs
          omega

theorem gridTokens_embedded :
    ∀ n (s : List Char), s.length ≤ n → embedded (gridTokens s) s := by
  intro n
  induction n with
  | zero =>
    intro s hs
    have hnil : s = [] := List.length_eq_zero.mp (Nat.le_zero.mp hs)
    rw [hnil, gridTokens_nil]
    trivial
  | succ n ih =>
    intro s hs
    cases s with
    | nil =>
      rw [gridTokens_nil]
      trivial
    | cons c cs =>
      cases hm : matchGridAt (c :: cs) with
      | none =>
        rw [gridTokens_cons_miss hm]
        refine embedded_cons_of c (ih cs ?_)
        simp only [List.length_cons] at hs
        omega
      | some pr =>
        obtain ⟨tok, rest⟩ := pr
        rw [gridTokens_cons_hit hm]
        obtain ⟨tail, hsx, htok, hrest, hrun⟩ := matchGridAt_spec hm
        refine ⟨[], rest, ?_, ?_⟩
        · rw [hsx, htok, hrest]
          simp only [List.nil_append, List.cons_append, List.cons.injEq,
            true_and]
          rw [List.takeWhile_append_dropWhile]
        · refine ih rest ?_
          have hlt := matchGridAt_length hm
          simp only [List.length_cons] at hlt hs
          omega

/-- C5: the token scan of the alert feed extracts exactly the regex
matches of `/grid-[\w-]+/g` from the detail text: every extracted token
has the pattern shape (literal `grid-` plus a non-empty run of word or
hyphen characters), the tokens occur in the text as disjoint substrings in
left-to-right order with duplicates preserved, a text containing no
token-shaped substring yields the empty sequence (and extraction, a total
function, never errors), a bare `grid-` with no trailing word/hyphen
character yields nothing, and a repeated token is extracted once per
occurrence in order. -/
theorem alertTokenExtraction (s : List Char) :
    (∀ t ∈ gridTokens s, tokenShape t) ∧
    embedded (gridTokens s) s ∧
    (¬ containsToken s → gridTokens s = []) ∧
    gridTokens ['g', 'r', 'i', 'd', '-'] = [] ∧
    gridTokens
        ['g', 'r', 'i', 'd', '-', '4', '2', ' ',
          'g', 'r', 'i', 'd', '-', '4', '2'] =
      [['g', 'r', 'i', 'd', '-', '4', '2'],
        ['g', 'r', 'i', 'd', '-', '4', '2']] := by
  refine ⟨gridTokens_shape s.length s le_rfl,
    gridTokens_embedded s.length s le_rfl, ?_, ?_, ?_⟩
  · intro hnc
    by_contra hne
    obtain ⟨t, ts, hts⟩ := List.exists_cons_of_ne_nil hne
    have hshape := gridTokens_shape s.length s le_rfl t
      (by rw [hts]; exact List.mem_cons_self t ts)
    have hemb := gridTokens_embedded s.length s le_rfl
    rw [hts] at hemb
    obtain ⟨pre, post, heq, _⟩ := hemb
    exact hnc ⟨pre, t, post, heq, hshape⟩
  · have h1 : matchGridAt ['g', 'r', 'i', 'd', '-'] = none := rfl
    have h2 : matchGridAt ['r', 'i', 'd', '-'] = none := rfl
    have h3 : matchGridAt ['i', 'd', '-'] = none := rfl
    have h4 : matchGridAt ['d', '-'] = none := rfl
    have h5 : matchGridAt ['-'] = none := rfl
    rw [gridTokens_cons_miss h1, gridTokens_cons_miss h2,
      gridTokens_cons_miss h3, gridTokens_cons_miss h4,
      gridTokens_cons_miss h5, gridTokens_nil]
  · have h1 : matchGridAt
        ['g', 'r', 'i', 'd', '-', '4', '2', ' ',
          'g', 'r', 'i', 'd', '-', '4', '2'] =
        some (['g', 'r', 'i', 'd', '-', '4', '2'],
          [' ', 'g', 'r', 'i', 'd', '-', '4', '2']) := rfl
    have h2 : matchGridAt [' ', 'g', 'r', 'i', 'd', '-', '4', '2'] =
        none := rfl
    have h3 : matchGridAt ['g', 'r', 'i', 'd', '-', '4', '2'] =
        some (['g', 'r', 'i', 'd', '-', '4', '2'], []) := rfl
    rw [gridTokens_cons_hit h1, gridTokens_cons_miss h2,
      gridTokens_cons_hit h3, gridTokens_nil]

/-- Witness for C5: a detail text with no token-shaped substring yields
the empty token sequence. -/
theorem alertTokenExtraction_witness : gridTokens ['x'] = [] :=
  (alertTokenExtraction ['x']).2.2.1 (by
    rintro ⟨pre, t, post, heq, u, htu, hu, -⟩
    have hlen := congrArg List.length heq
    have hu1 : 1 ≤ u.length := List.length_pos.mpr hu
    have ht : t.length = 5 + u.length := by
      rw [htu]
      simp only [List.length_cons]
      omega
    simp only [List.length_append, List.length_cons, List.length_nil] at hlen
    omega)
